import Mathlib

/-!
# Verification of the ASI-Intel-Dash archive-merge pipeline

Shallow embedding of `automated_update.py` and `seed_database.py`:
the SQLite `articles` table becomes a list of rows, `INSERT OR IGNORE`
becomes insert-if-headline-absent, the `countries` column stores a JSON
serialization of a list of strings (`json.dumps` on insert, `json.loads`
on read), and the `__main__` block becomes a pure function from the run's
external inputs to the observable effects (remote commits, prints, final
database, exit behaviour).
-/

namespace Dash

/-! ## JSON serialization of the `countries` column

`add_articles_to_db` stores `json.dumps(article['countries'])` and
`get_all_articles_from_db` applies `json.loads` to the stored string.
The pipeline only ever stores lists of strings (country codes), so we
embed the encoder and a parser for JSON arrays of strings.  The encoder
follows Python's default separators (`", "` between items); the parser
skips whitespace before each token and rejects trailing garbage, as
`json.loads` does. -/

/-- JSON string escaping: `"` and `\` get a backslash, other characters
pass through unchanged. -/
def escChar (c : Char) : List Char :=
  if c = '"' ∨ c = '\\' then ['\\', c] else [c]

def escChars : List Char → List Char
  | [] => []
  | c :: cs => escChar c ++ escChars cs

/-- Encoded JSON string literal, quotes included. -/
def encStrChars (s : String) : List Char :=
  '"' :: (escChars s.data ++ ['"'])

/-- Everything after the first element of a JSON array of strings:
`", " item`* then `"]"`. -/
def encTail : List String → List Char
  | [] => [']']
  | s :: rest => ',' :: ' ' :: (encStrChars s ++ encTail rest)

/-- `json.dumps` on a list of strings (Python default separators). -/
def jsonDumpsList (l : List String) : String :=
  match l with
  | [] => "[]"
  | s :: rest => ⟨'[' :: (encStrChars s ++ encTail rest)⟩

def isWs (c : Char) : Bool := c = ' ' ∨ c = '\t' ∨ c = '\n' ∨ c = '\r'

def skipWs : List Char → List Char
  | [] => []
  | c :: cs => if isWs c then skipWs cs else c :: cs

/-- Parse the body of a JSON string literal (the opening quote already
consumed), returning the decoded characters and the rest of the input. -/
def parseStrChars : List Char → Option (List Char × List Char)
  | [] => none
  | c :: cs =>
    if c = '"' then some ([], cs)
    else if c = '\\' then
      match cs with
      | [] => none
      | d :: ds =>
        if d = '"' ∨ d = '\\' then
          (parseStrChars ds).map (fun p => (d :: p.1, p.2))
        else none
    else (parseStrChars cs).map (fun p => (c :: p.1, p.2))

/-- Parse the rest of a JSON array of strings after its first element:
either `]`, or `, "…"` repeated.  `fuel` bounds the number of elements. -/
def parseTail : Nat → List Char → Option (List String × List Char)
  | 0, _ => none
  | fuel + 1, s =>
    match skipWs s with
    | [] => none
    | c :: r =>
      if c = ']' then some ([], r)
      else if c = ',' then
        match skipWs r with
        | [] => none
        | d :: r2 =>
          if d = '"' then
            (parseStrChars r2).bind fun p =>
              (parseTail fuel p.2).map fun q => ((⟨p.1⟩ : String) :: q.1, q.2)
          else none
      else none

/-- Parse a JSON array of strings, returning the list and the rest. -/
def parseListChars (s : List Char) : Option (List String × List Char) :=
  match skipWs s with
  | [] => none
  | c :: r1 =>
    if c = '[' then
      match skipWs r1 with
      | [] => none
      | d :: r2 =>
        if d = ']' then some ([], r2)
        else if d = '"' then
          (parseStrChars r2).bind fun p =>
            (parseTail (r2.length + 1) p.2).map fun q => ((⟨p.1⟩ : String) :: q.1, q.2)
        else none
    else none

/-- `json.loads` restricted to JSON arrays of strings (the shape this
pipeline stores in the `countries` column); anything else fails, as the
exception does. -/
def jsonLoadsList (s : String) : Option (List String) :=
  match parseListChars s.data with
  | some (l, rest) => if skipWs rest = [] then some l else none
  | none => none

theorem parseStrChars_quote (cs : List Char) :
    parseStrChars ('"' :: cs) = some ([], cs) := by
  rw [parseStrChars.eq_def]
  simp

theorem parseStrChars_escq (ds : List Char) :
    parseStrChars ('\\' :: '"' :: ds) =
      (parseStrChars ds).map (fun p => ('"' :: p.1, p.2)) := by
  rw [parseStrChars.eq_def]
  simp

theorem parseStrChars_escbs (ds : List Char) :
    parseStrChars ('\\' :: '\\' :: ds) =
      (parseStrChars ds).map (fun p => ('\\' :: p.1, p.2)) := by
  rw [parseStrChars.eq_def]
  simp

theorem parseStrChars_raw (c : Char) (cs : List Char) (h1 : ¬ c = '"') (h2 : ¬ c = '\\') :
    parseStrChars (c :: cs) =
      (parseStrChars cs).map (fun p => (c :: p.1, p.2)) := by
  rw [parseStrChars.eq_def]
  simp [h1, h2]

theorem parseStrChars_enc (s : List Char) (rest : List Char) :
    parseStrChars (escChars s ++ '"' :: rest) = some (s, rest) := by
  induction s with
  | nil => exact parseStrChars_quote rest
  | cons c cs ih =>
    rcases (em (c = '"' ∨ c = '\\')) with hc | hc
    · rcases hc with rfl | rfl
      · rw [show escChars ('"' :: cs) = '\\' :: '"' :: escChars cs from rfl,
          List.cons_append, List.cons_append, parseStrChars_escq, ih]
        rfl
      · rw [show escChars ('\\' :: cs) = '\\' :: '\\' :: escChars cs from rfl,
          List.cons_append, List.cons_append, parseStrChars_escbs, ih]
        rfl
    · push_neg at hc
      rw [show escChars (c :: cs) = escChar c ++ escChars cs from rfl, escChar,
        if_neg (not_or.mpr hc), List.singleton_append, List.cons_append,
        parseStrChars_raw c _ hc.1 hc.2, ih]
      rfl

theorem length_le_encTail (t : List String) : t.length ≤ (encTail t).length := by
  induction t with
  | nil => simp [encTail]
  | cons a b ih =>
    simp only [encTail, List.length_cons, List.length_append]
    omega

theorem skipWs_cons_not (c : Char) (cs : List Char) (h : isWs c = false) :
    skipWs (c :: cs) = c :: cs := by
  simp [skipWs, h]

theorem skipWs_space (cs : List Char) : skipWs (' ' :: cs) = skipWs cs := by
  simp [skipWs, isWs]

theorem parseTail_close (fuel : Nat) (r : List Char) :
    parseTail (fuel + 1) (']' :: r) = some ([], r) := by
  rw [parseTail.eq_def]
  simp [skipWs_cons_not, isWs]

theorem parseTail_step (fuel : Nat) (r2 : List Char) :
    parseTail (fuel + 1) (',' :: ' ' :: '"' :: r2) =
      (parseStrChars r2).bind fun p =>
        (parseTail fuel p.2).map fun q => ((⟨p.1⟩ : String) :: q.1, q.2) := by
  rw [parseTail.eq_def]
  simp [skipWs_cons_not, skipWs_space, isWs]

theorem parseListChars_nil (r2 : List Char) :
    parseListChars ('[' :: ']' :: r2) = some ([], r2) := by
  rw [parseListChars.eq_def]
  simp [skipWs_cons_not, isWs]

theorem parseListChars_cons (r2 : List Char) :
    parseListChars ('[' :: '"' :: r2) =
      (parseStrChars r2).bind fun p =>
        (parseTail (r2.length + 1) p.2).map fun q => ((⟨p.1⟩ : String) :: q.1, q.2) := by
  rw [parseListChars.eq_def]
  simp [skipWs_cons_not, isWs]

theorem parseTail_enc (l : List String) :
    ∀ (fuel : Nat) (rest : List Char), l.length < fuel →
      parseTail fuel (encTail l ++ rest) = some (l, rest) := by
  induction l with
  | nil =>
    intro fuel rest hf
    match fuel, hf with
    | fuel + 1, _ => exact parseTail_close fuel rest
  | cons s t ih =>
    intro fuel rest hf
    match fuel, hf with
    | fuel + 1, hf =>
      have hlt : t.length < fuel := by
        simpa [List.length_cons, Nat.succ_lt_succ_iff] using hf
      have hstep : parseTail fuel (encTail t ++ rest) = some (t, rest) := ih fuel rest hlt
      have hshape : encTail (s :: t) ++ rest =
          ',' :: ' ' :: '"' :: (escChars s.data ++ ('"' :: (encTail t ++ rest))) := by
        simp [encTail, encStrChars]
      rw [hshape, parseTail_step, parseStrChars_enc, Option.some_bind, hstep]
      rfl

theorem parseTail_enc_nil (l : List String) (fuel : Nat) (h : l.length < fuel) :
    parseTail fuel (encTail l) = some (l, []) := by
  have := parseTail_enc l fuel [] h
  rwa [List.append_nil] at this

theorem jsonLoadsList_enc (l : List String) :
    jsonLoadsList (jsonDumpsList l) = some l := by
  cases l with
  | nil => decide
  | cons s t =>
    have hd : (jsonDumpsList (s :: t)).data =
        '[' :: '"' :: (escChars s.data ++ ('"' :: encTail t)) := by
      simp [jsonDumpsList, encStrChars]
    have hlen : t.length < (escChars s.data ++ ('"' :: encTail t)).length + 1 := by
      have h1 := length_le_encTail t
      simp only [List.length_append, List.length_cons]
      omega
    unfold jsonLoadsList
    rw [hd, parseListChars_cons, parseStrChars_enc, Option.some_bind,
      parseTail_enc_nil t _ hlen]
    simp [skipWs]

/-! ## Data model

`Article` is a fully-formed record (the six-field schema).  `Item` is a
dict produced by the classifier: every field access may raise `KeyError`,
so each field is optional.  `Row` is a stored row of the `articles`
table: the `countries` column holds the JSON-serialized string. -/

structure Article where
  headline : String
  type : String
  countries : List String
  category : String
  date : String
  body : String
deriving DecidableEq, Repr

structure Item where
  headline : Option String
  type : Option String
  countries : Option (List String)
  category : Option String
  date : Option String
  body : Option String
deriving DecidableEq, Repr

structure Row where
  headline : String
  type : String
  countries : String
  category : String
  date : String
  body : String
deriving DecidableEq, Repr

/-- The `articles` table, in insertion order (SQLite rowid order). -/
abbrev DB := List Row

/-- `init_db`: `CREATE TABLE IF NOT EXISTS` — creates an empty table when
none exists and keeps existing rows otherwise. -/
def init_db (existing : Option DB) : DB := existing.getD []

/-- The tuple bound by the `INSERT` in `add_articles_to_db`:
`countries` goes through `json.dumps`. -/
def rowOfArticle (a : Article) : Row :=
  { headline := a.headline, type := a.type, countries := jsonDumpsList a.countries,
    category := a.category, date := a.date, body := a.body }

/-- The dict built by `get_all_articles_from_db` from a stored row:
`countries` goes back through `json.loads`, which raises (`none`) if the
column does not hold a JSON array of strings. -/
def articleOfRow (r : Row) : Option Article :=
  (jsonLoadsList r.countries).map fun cs =>
    { headline := r.headline, type := r.type, countries := cs,
      category := r.category, date := r.date, body := r.body }

/-- The six subscript accesses `article['headline']`, …, `article['body']`:
`none` models the `KeyError` raised when a field is missing. -/
def toArticle (i : Item) : Option Article :=
  match i.headline, i.type, i.countries, i.category, i.date, i.body with
  | some h, some t, some cs, some cat, some d, some b =>
      some { headline := h, type := t, countries := cs, category := cat,
             date := d, body := b }
  | _, _, _, _, _, _ => none

/-- A complete item, as the classifier should emit it. -/
def itemOfArticle (a : Article) : Item :=
  { headline := some a.headline, type := some a.type, countries := some a.countries,
    category := some a.category, date := some a.date, body := some a.body }

def headlineExists (db : DB) (h : String) : Bool :=
  db.any (fun r => r.headline == h)

/-- One `INSERT OR IGNORE`: the row is appended iff no stored row has the
same `headline` (the PRIMARY KEY); the `Bool` is `cursor.rowcount > 0`. -/
def insertOrIgnore (db : DB) (a : Article) : DB × Bool :=
  if headlineExists db a.headline then (db, false)
  else (db ++ [rowOfArticle a], true)

/-- `add_articles_to_db`: iterate over the batch, `INSERT OR IGNORE` each
item, count the rows actually inserted, then commit.  A missing field
raises mid-loop (`none`); the uncommitted transaction is rolled back, so
a failing batch leaves no trace in the database. -/
def add_articles_to_db (db : DB) : List Item → Option (DB × Nat)
  | [] => some (db, 0)
  | i :: rest =>
    (toArticle i).bind fun a =>
      (add_articles_to_db (insertOrIgnore db a).1 rest).map fun q =>
        (q.1, (if (insertOrIgnore db a).2 then 1 else 0) + q.2)

/-- The database after one run of the merge step: on an exception the
transaction is rolled back and the table is unchanged. -/
def mergeStep (db : DB) (batch : List Item) : DB :=
  match add_articles_to_db db batch with
  | some p => p.1
  | none => db

/-- A sequence of runs, each merging one batch. -/
def mergeAll (db : DB) (batches : List (List Item)) : DB :=
  batches.foldl mergeStep db

/-- The PRIMARY KEY invariant: no two stored rows share a headline. -/
def uniqueHeadlines (db : DB) : Prop :=
  (db.map Row.headline).Nodup

instance (db : DB) : Decidable (uniqueHeadlines db) := by
  unfold uniqueHeadlines
  infer_instance

/-! ## Reading the archive back, sorted by date descending

`SELECT … ORDER BY date DESC` compares the TEXT column bytewise
(SQLite's BINARY collation); on UTF-8 this is codepoint order, embedded
here as lexicographic order on the character list. -/

def strLeChars : List Char → List Char → Bool
  | [], _ => true
  | _ :: _, [] => false
  | a :: as, b :: bs => if a = b then strLeChars as bs else decide (a < b)

def dateLe (a b : String) : Bool := strLeChars a.data b.data

/-- The `ORDER BY date DESC` comparator: `r1` may come before `r2` iff
`r1.date ≥ r2.date` in bytewise order. -/
def rowLe (r1 r2 : Row) : Bool := dateLe r2.date r1.date

/-- Insert a row into a date-descending list. -/
def insertSorted (r : Row) : List Row → List Row
  | [] => [r]
  | x :: xs => if rowLe r x then r :: x :: xs else x :: insertSorted r xs

/-- The result set of `SELECT … ORDER BY date DESC`: some permutation of
the table's rows that is sorted by date descending (the statement only
promises the ordering; we realize it as an insertion sort). -/
def sortRows (db : DB) : List Row := db.foldr insertSorted []

/-- The row-to-dict loop of `get_all_articles_from_db`. -/
def rowsToArticles : List Row → Option (List Article)
  | [] => some []
  | r :: rs =>
    (articleOfRow r).bind fun a => (rowsToArticles rs).map fun as => a :: as

/-- `get_all_articles_from_db`: all rows sorted by date descending,
converted back to dicts (`json.loads` on `countries` may raise). -/
def get_all_articles_from_db (db : DB) : Option (List Article) :=
  rowsToArticles (sortRows db)

/-- `LIVE_ARTICLE_LIMIT = 150`. -/
def LIVE_ARTICLE_LIMIT : Nat := 150

/-- `all_articles[:LIVE_ARTICLE_LIMIT]` — the live JSON data. -/
def liveSlice (arts : List Article) : List Article :=
  arts.take LIVE_ARTICLE_LIMIT

/-- Modelled from the spec: the Live-View Projector at an arbitrary
integer limit N (`allRecords()[0:N]`); the source instantiates only
N = 150, and the spec fixes the degenerate case N ≤ 0 to the empty
list. -/
def liveViewN (arts : List Article) (n : Int) : List Article :=
  arts.take n.toNat

/-! ## Archive-store lemmas -/

theorem headlineExists_iff (db : DB) (h : String) :
    headlineExists db h = true ↔ h ∈ db.map Row.headline := by
  simp only [headlineExists, List.any_eq_true, beq_iff_eq, List.mem_map]

theorem headlineExists_append (db db2 : DB) (h : String) :
    headlineExists (db ++ db2) h = (headlineExists db h || headlineExists db2 h) := by
  simp [headlineExists, List.any_append]

theorem rowOfArticle_headline (a : Article) : (rowOfArticle a).headline = a.headline := rfl

/-- Whatever `add_articles_to_db` commits is the old table plus appended
rows, each of whose headlines was absent before; the returned count is
the number of appended rows. -/
theorem add_articles_append (batch : List Item) :
    ∀ (db db1 : DB) (n : Nat), add_articles_to_db db batch = some (db1, n) →
      ∃ extra, db1 = db ++ extra ∧ n = extra.length ∧
        ∀ r ∈ extra, headlineExists db r.headline = false := by
  induction batch with
  | nil =>
    intro db db1 n h
    simp only [add_articles_to_db, Option.some.injEq, Prod.mk.injEq] at h
    exact ⟨[], by simp [← h.1, h.2]⟩
  | cons i rest ih =>
    intro db db1 n h
    simp only [add_articles_to_db] at h
    cases hta : toArticle i with
    | none => rw [hta] at h; simp at h
    | some a =>
      rw [hta] at h
      simp only [Option.some_bind] at h
      by_cases hex : headlineExists db a.headline = true
      · rw [show insertOrIgnore db a = (db, false) by simp [insertOrIgnore, hex]] at h
        simp only [Option.map_eq_some'] at h
        obtain ⟨q, hq, hqe⟩ := h
        have h1 : q.1 = db1 := congrArg Prod.fst hqe
        have h2 : (0 : Nat) + q.2 = n := congrArg Prod.snd hqe
        obtain ⟨extra, he1, he2, he3⟩ := ih db q.1 q.2 (by rw [hq])
        exact ⟨extra, by rw [← h1, he1], by omega, he3⟩
      · rw [show insertOrIgnore db a = (db ++ [rowOfArticle a], true) by
          simp [insertOrIgnore, hex]] at h
        simp only [Option.map_eq_some'] at h
        obtain ⟨q, hq, hqe⟩ := h
        have h1 : q.1 = db1 := congrArg Prod.fst hqe
        have h2 : (1 : Nat) + q.2 = n := congrArg Prod.snd hqe
        obtain ⟨extra, he1, he2, he3⟩ := ih (db ++ [rowOfArticle a]) q.1 q.2 (by rw [hq])
        refine ⟨rowOfArticle a :: extra, ?_, ?_, ?_⟩
        · rw [← h1, he1, List.append_assoc, List.singleton_append]
        · simp only [List.length_cons]; omega
        · intro r hr
          rcases List.mem_cons.mp hr with rfl | hr
          · rw [rowOfArticle_headline]
            exact Bool.not_eq_true _ ▸ hex
          · have := he3 r hr
            rw [headlineExists_append] at this
            exact (Bool.or_eq_false_iff.mp this).1

/-- Destructor for one loop iteration of `add_articles_to_db`. -/
theorem add_articles_cons_elim (db : DB) (i : Item) (rest : List Item) (db1 : DB) (n : Nat)
    (h : add_articles_to_db db (i :: rest) = some (db1, n)) :
    ∃ a q2, toArticle i = some a ∧
      add_articles_to_db (insertOrIgnore db a).1 rest = some (db1, q2) ∧
      n = (if (insertOrIgnore db a).2 then 1 else 0) + q2 := by
  simp only [add_articles_to_db] at h
  cases hta : toArticle i with
  | none => rw [hta] at h; simp at h
  | some a =>
    rw [hta] at h
    simp only [Option.some_bind, Option.map_eq_some'] at h
    obtain ⟨q, hq, hqe⟩ := h
    have h1 : q.1 = db1 := congrArg Prod.fst hqe
    have h2 : (if (insertOrIgnore db a).2 then 1 else 0) + q.2 = n := congrArg Prod.snd hqe
    have hpair : some q = some (db1, q.2) := by rw [← h1]
    exact ⟨a, q.2, rfl, hq.trans hpair, h2.symm⟩

theorem headlineExists_mono (db extra : DB) (h : String)
    (hx : headlineExists db h = true) : headlineExists (db ++ extra) h = true := by
  rw [headlineExists_append, hx, Bool.true_or]

theorem insertOrIgnore_unique (db : DB) (a : Article) (hu : uniqueHeadlines db) :
    uniqueHeadlines (insertOrIgnore db a).1 := by
  unfold insertOrIgnore
  by_cases hex : headlineExists db a.headline = true
  · simpa [hex] using hu
  · have hnm : a.headline ∉ db.map Row.headline := fun hmem =>
      hex ((headlineExists_iff db a.headline).mpr hmem)
    simp only [hex, if_false, Bool.false_eq_true]
    unfold uniqueHeadlines
    rw [List.map_append]
    rw [List.nodup_append]
    exact ⟨hu, List.nodup_singleton _, by
      simp only [List.map_cons, List.map_nil, rowOfArticle_headline]
      intro x hx hx1
      rw [List.mem_singleton.mp hx1] at hx
      exact hnm hx⟩

/-- The PRIMARY KEY invariant is preserved by every committed batch. -/
theorem add_articles_unique (batch : List Item) :
    ∀ (db db1 : DB) (n : Nat), add_articles_to_db db batch = some (db1, n) →
      uniqueHeadlines db → uniqueHeadlines db1 := by
  induction batch with
  | nil =>
    intro db db1 n h hu
    simp only [add_articles_to_db, Option.some.injEq, Prod.mk.injEq] at h
    rwa [← h.1]
  | cons i rest ih =>
    intro db db1 n h hu
    obtain ⟨a, q2, hta, hrest, hn⟩ := add_articles_cons_elim db i rest db1 n h
    exact ih _ db1 q2 hrest (insertOrIgnore_unique db a hu)

theorem mergeStep_unique (db : DB) (batch : List Item) (hu : uniqueHeadlines db) :
    uniqueHeadlines (mergeStep db batch) := by
  unfold mergeStep
  cases hadd : add_articles_to_db db batch with
  | none => exact hu
  | some p => exact add_articles_unique batch db p.1 p.2 (by rw [hadd]) hu

theorem mergeAll_unique (batches : List (List Item)) :
    ∀ db : DB, uniqueHeadlines db → uniqueHeadlines (mergeAll db batches) := by
  induction batches with
  | nil => intro db hu; exact hu
  | cons b bs ih =>
    intro db hu
    exact ih (mergeStep db b) (mergeStep_unique db b hu)

/-- A committed run only appends rows, and only rows with fresh headlines. -/
theorem mergeStep_append (db : DB) (batch : List Item) :
    ∃ extra, mergeStep db batch = db ++ extra ∧
      ∀ r ∈ extra, headlineExists db r.headline = false := by
  unfold mergeStep
  cases hadd : add_articles_to_db db batch with
  | none => exact ⟨[], by simp⟩
  | some p =>
    obtain ⟨extra, h1, _, h3⟩ := add_articles_append batch db p.1 p.2 (by rw [hadd])
    exact ⟨extra, h1, h3⟩

theorem mergeAll_append (batches : List (List Item)) :
    ∀ db : DB, ∃ extra, mergeAll db batches = db ++ extra := by
  induction batches with
  | nil => intro db; exact ⟨[], by simp [mergeAll]⟩
  | cons b bs ih =>
    intro db
    obtain ⟨e1, he1, _⟩ := mergeStep_append db b
    obtain ⟨e2, he2⟩ := ih (mergeStep db b)
    refine ⟨e1 ++ e2, ?_⟩
    show mergeAll (mergeStep db b) bs = db ++ (e1 ++ e2)
    rw [he2, he1, List.append_assoc]

/-- First-write-wins: once a headline is stored, later merges never touch
its row (the rows carrying that headline are exactly the ones before). -/
theorem mergeStep_filter_frozen (db : DB) (batch : List Item) (hl : String)
    (hex : headlineExists db hl = true) :
    (mergeStep db batch).filter (fun r => r.headline == hl) =
      db.filter (fun r => r.headline == hl) := by
  obtain ⟨extra, he, hfresh⟩ := mergeStep_append db batch
  rw [he, List.filter_append]
  have hnil : extra.filter (fun r => r.headline == hl) = [] := by
    rw [List.filter_eq_nil_iff]
    intro r hr hbeq
    have hfr := hfresh r hr
    rw [beq_iff_eq] at hbeq
    rw [hbeq] at hfr
    rw [hfr] at hex
    cases hex
  rw [hnil, List.append_nil]

/-- After a committed batch, every item's headline is present. -/
theorem add_articles_present_after (batch : List Item) :
    ∀ (db db1 : DB) (n : Nat), add_articles_to_db db batch = some (db1, n) →
      ∀ i ∈ batch, ∃ a, toArticle i = some a ∧ headlineExists db1 a.headline = true := by
  induction batch with
  | nil => intro db db1 n h i hi; cases hi
  | cons i0 rest ih =>
    intro db db1 n h i hi
    obtain ⟨a, q2, hta, hrest, hn⟩ := add_articles_cons_elim db i0 rest db1 n h
    rcases List.mem_cons.mp hi with rfl | hi
    · refine ⟨a, hta, ?_⟩
      have hp1 : headlineExists (insertOrIgnore db a).1 a.headline = true := by
        unfold insertOrIgnore
        by_cases hex : headlineExists db a.headline = true
        · simp [hex]
        · simp only [hex, if_false, Bool.false_eq_true]
          rw [headlineExists_append]
          simp [headlineExists, rowOfArticle_headline]
      obtain ⟨extra, he1, _, _⟩ :=
        add_articles_append rest (insertOrIgnore db a).1 db1 q2 hrest
      rw [he1]
      exact headlineExists_mono _ extra _ hp1
    · exact ih _ db1 q2 hrest i hi

/-- A batch whose headlines are all present is a committed no-op. -/
theorem add_articles_all_present (batch : List Item) :
    ∀ db : DB, (∀ i ∈ batch, ∃ a, toArticle i = some a ∧
        headlineExists db a.headline = true) →
      add_articles_to_db db batch = some (db, 0) := by
  induction batch with
  | nil => intro db _; rfl
  | cons i rest ih =>
    intro db hall
    obtain ⟨a, hta, hex⟩ := hall i (List.mem_cons_self i rest)
    have hio : insertOrIgnore db a = (db, false) := by simp [insertOrIgnore, hex]
    simp only [add_articles_to_db, hta, Option.some_bind, hio]
    rw [ih db fun j hj => hall j (List.mem_cons_of_mem i hj)]
    rfl

/-! ## Order and read-back lemmas -/

theorem strLeChars_total (a : List Char) :
    ∀ b, (strLeChars a b || strLeChars b a) = true := by
  induction a with
  | nil => intro b; simp [strLeChars]
  | cons x xs ih =>
    intro b
    cases b with
    | nil => simp [strLeChars]
    | cons y ys =>
      by_cases hxy : x = y
      · subst hxy
        simpa [strLeChars] using ih ys
      · have hyx : ¬ y = x := fun h => hxy h.symm
        rcases lt_or_gt_of_ne hxy with hlt | hgt
        · simp [strLeChars, hxy, hyx, hlt]
        · simp [strLeChars, hxy, hyx, hgt]

theorem strLeChars_trans (a : List Char) :
    ∀ b c, strLeChars a b = true → strLeChars b c = true → strLeChars a c = true := by
  induction a with
  | nil => intro b c _ _; simp [strLeChars]
  | cons x xs ih =>
    intro b c h1 h2
    cases b with
    | nil => simp [strLeChars] at h1
    | cons y ys =>
      cases c with
      | nil => simp [strLeChars] at h2
      | cons z zs =>
        by_cases hxy : x = y
        · subst hxy
          by_cases hyz : x = z
          · subst hyz
            simp only [strLeChars, if_pos rfl] at h1 h2 ⊢
            exact ih ys zs h1 h2
          · simp only [strLeChars, if_pos rfl] at h1
            simp only [strLeChars, if_neg hyz] at h2 ⊢
            exact h2
        · simp only [strLeChars, if_neg hxy, decide_eq_true_eq] at h1
          by_cases hyz : y = z
          · subst hyz
            simp only [strLeChars, if_neg hxy, decide_eq_true_eq]
            exact h1
          · simp only [strLeChars, if_neg hyz, decide_eq_true_eq] at h2
            have hlt : x < z := lt_trans h1 h2
            simp only [strLeChars, if_neg (ne_of_lt hlt), decide_eq_true_eq]
            exact hlt

theorem rowLe_total (r1 r2 : Row) : (rowLe r1 r2 || rowLe r2 r1) = true :=
  strLeChars_total r2.date.data r1.date.data

theorem rowLe_trans (r1 r2 r3 : Row) (h1 : rowLe r1 r2 = true) (h2 : rowLe r2 r3 = true) :
    rowLe r1 r3 = true :=
  strLeChars_trans r3.date.data r2.date.data r1.date.data h2 h1

theorem insertSorted_perm (r : Row) (l : List Row) :
    (insertSorted r l).Perm (r :: l) := by
  induction l with
  | nil => exact List.Perm.refl _
  | cons x xs ih =>
    unfold insertSorted
    by_cases h : rowLe r x = true
    · rw [if_pos h]
    · rw [if_neg h]
      exact (List.Perm.cons x ih).trans (List.Perm.swap r x xs)

theorem sortRows_perm (db : DB) : (sortRows db).Perm db := by
  induction db with
  | nil => exact List.Perm.refl _
  | cons r rest ih =>
    show (insertSorted r (sortRows rest)).Perm (r :: rest)
    exact (insertSorted_perm r (sortRows rest)).trans (List.Perm.cons r ih)

theorem insertSorted_pairwise (r : Row) (l : List Row)
    (hp : l.Pairwise (fun r1 r2 => rowLe r1 r2 = true)) :
    (insertSorted r l).Pairwise (fun r1 r2 => rowLe r1 r2 = true) := by
  induction l with
  | nil => simp [insertSorted]
  | cons x xs ih =>
    rcases List.pairwise_cons.mp hp with ⟨hhead, htail⟩
    unfold insertSorted
    by_cases h : rowLe r x = true
    · rw [if_pos h]
      refine List.Pairwise.cons ?_ hp
      intro y hy
      rcases List.mem_cons.mp hy with rfl | hy
      · exact h
      · exact rowLe_trans r x y h (hhead y hy)
    · rw [if_neg h]
      have hxr : rowLe x r = true := by
        have := rowLe_total r x
        rcases Bool.or_eq_true_iff.mp this with h1 | h1
        · exact absurd h1 h
        · exact h1
      refine List.Pairwise.cons ?_ (ih htail)
      intro y hy
      have : y ∈ r :: xs := (insertSorted_perm r xs).mem_iff.mp hy
      rcases List.mem_cons.mp this with rfl | hy2
      · exact hxr
      · exact hhead y hy2

theorem sortRows_pairwise (db : DB) :
    (sortRows db).Pairwise (fun r1 r2 => rowLe r1 r2 = true) := by
  induction db with
  | nil => exact List.Pairwise.nil
  | cons r rest ih =>
    show (insertSorted r (sortRows rest)).Pairwise _
    exact insertSorted_pairwise r (sortRows rest) ih

theorem articleOfRow_elim (r : Row) (a : Article) (h : articleOfRow r = some a) :
    a.headline = r.headline ∧ a.type = r.type ∧
      jsonLoadsList r.countries = some a.countries ∧ a.category = r.category ∧
      a.date = r.date ∧ a.body = r.body := by
  simp only [articleOfRow, Option.map_eq_some'] at h
  obtain ⟨cs, hcs, ha⟩ := h
  rw [← ha]
  exact ⟨rfl, rfl, hcs, rfl, rfl, rfl⟩

/-- `json.dumps` then `json.loads` round-trips the stored row back to the
original dict. -/
theorem articleOfRow_rowOfArticle (a : Article) :
    articleOfRow (rowOfArticle a) = some a := by
  unfold articleOfRow rowOfArticle
  simp [jsonLoadsList_enc]

theorem rowsToArticles_forall₂ (rs : List Row) :
    ∀ as, rowsToArticles rs = some as →
      List.Forall₂ (fun r a => articleOfRow r = some a) rs as := by
  induction rs with
  | nil =>
    intro as h
    simp only [rowsToArticles, Option.some.injEq] at h
    rw [← h]
    exact List.Forall₂.nil
  | cons r rest ih =>
    intro as h
    simp only [rowsToArticles, Option.bind_eq_some, Option.map_eq_some'] at h
    obtain ⟨a, ha, as', has', rfl⟩ := h
    exact List.Forall₂.cons ha (ih as' has')

theorem forall₂_mem_right {R : Row → Article → Prop} :
    ∀ {rs : List Row} {as : List Article}, List.Forall₂ R rs as →
      ∀ a ∈ as, ∃ r ∈ rs, R r a := by
  intro rs as h
  induction h with
  | nil => intro a ha; cases ha
  | cons hR _ ih =>
    intro a ha
    rcases List.mem_cons.mp ha with rfl | ha
    · exact ⟨_, List.mem_cons_self _ _, hR⟩
    · obtain ⟨r, hr, hRr⟩ := ih a ha
      exact ⟨r, List.mem_cons_of_mem _ hr, hRr⟩

theorem forall₂_pairwise_dates :
    ∀ {rs : List Row} {as : List Article},
      List.Forall₂ (fun r a => articleOfRow r = some a) rs as →
      rs.Pairwise (fun r1 r2 => rowLe r1 r2 = true) →
      as.Pairwise (fun a b => dateLe b.date a.date = true) := by
  intro rs as h
  induction h with
  | nil => intro _; exact List.Pairwise.nil
  | @cons r a rs' as' hR hF ih =>
    intro hp
    rcases List.pairwise_cons.mp hp with ⟨hhead, htail⟩
    refine List.Pairwise.cons ?_ (ih htail)
    intro b hb
    obtain ⟨r', hr', hR'⟩ := forall₂_mem_right hF b hb
    have h1 := (articleOfRow_elim r a hR).2.2.2.2.1
    have h2 := (articleOfRow_elim r' b hR').2.2.2.2.1
    have := hhead r' hr'
    rw [rowLe, dateLe] at this
    rw [dateLe, h1, h2]
    exact this

/-! ## The run model of `__main__` in `automated_update.py`

A pure function from the run's external inputs (environment variables,
remote file states, news-fetch result, classifier output) to its
observable effects. -/

structure RunEnv where
  newsApiKey : Option String
  geminiApiKey : Option String
  githubPat : Option String
deriving DecidableEq, Repr

/-- What `reformat_with_gemini`'s `json.loads(response.text.strip())`
yields: a JSON list of objects (`records`), text that is not JSON at all
(`notJson`, the `JSONDecodeError` branch that prints the raw output and
returns `None`), or valid JSON of some other shape (`otherJson`), which
passes the function but then either short-circuits the `if
processed_data:` test (falsy: `{}`, `0`, `null`, `""`) or blows up with
an uncaught exception inside the `item.get` comprehension (truthy:
`42`, `"text"`, a non-empty object or a list of non-dicts). -/
inductive LLMOutput where
  | records (items : List Item)
  | notJson (raw : String)
  | otherJson (truthy : Bool) (raw : String)
deriving DecidableEq, Repr

structure RunInput where
  env : RunEnv
  /-- `DashData/archive.db` content and sha at run start (`none`: 404). -/
  remoteDb : Option (DB × String)
  /-- sha of `DashData/data.json` at run start (the code never reads it). -/
  jsonShaAtStart : Option String
  /-- sha of `DashData/data.json` when fetched just before its commit. -/
  jsonShaAtPublish : Option String
  /-- `len(raw_news)` from `fetch_news`. -/
  rawNewsCount : Nat
  llm : LLMOutput
deriving DecidableEq, Repr

inductive CommitContent where
  | liveJson (articles : List Article)
  | dbBlob (db : DB)
deriving DecidableEq, Repr

/-- One `commit_file_to_github` call: `expectedSha = some s` means
`repo.update_file(..., sha, ...)` with prior version `s`; `none` means
`repo.create_file`. -/
structure Commit where
  path : String
  content : CommitContent
  expectedSha : Option String
deriving DecidableEq, Repr

inductive ExtCall where
  | githubGetDb
  | newsFetch
  | classify
  | githubGetJson
deriving DecidableEq, Repr

structure RunResult where
  calls : List ExtCall
  commits : List Commit
  /-- local `archive.db` content at the end (`none`: never opened). -/
  dbFinal : Option DB
  /-- the count returned by `add_articles_to_db`, when it committed. -/
  insertedCount : Option Nat
  printedEnvError : Bool
  /-- the `Raw LLM Output` diagnostic of `reformat_with_gemini`. -/
  printedRawLLM : Bool
  /-- an uncaught exception escaped (non-zero process exit). -/
  crashed : Bool
deriving DecidableEq, Repr

def JSON_FILE_PATH : String := "DashData/data.json"

def DB_FILE_PATH : String := "DashData/archive.db"

/-- The `__main__` block of `automated_update.py`. -/
def mainRun (inp : RunInput) : RunResult :=
  if (inp.env.newsApiKey.isSome && inp.env.geminiApiKey.isSome
      && inp.env.githubPat.isSome) = false then
    { calls := [], commits := [], dbFinal := none, insertedCount := none,
      printedEnvError := true, printedRawLLM := false, crashed := false }
  else
    if inp.rawNewsCount = 0 then
      { calls := [.githubGetDb, .newsFetch], commits := [],
        dbFinal := some (init_db (inp.remoteDb.map Prod.fst)),
        insertedCount := none, printedEnvError := false, printedRawLLM := false,
        crashed := false }
    else
      match inp.llm with
      | .notJson _ =>
        { calls := [.githubGetDb, .newsFetch, .classify], commits := [],
          dbFinal := some (init_db (inp.remoteDb.map Prod.fst)),
          insertedCount := none, printedEnvError := false,
          printedRawLLM := true, crashed := false }
      | .otherJson truthy _ =>
        { calls := [.githubGetDb, .newsFetch, .classify], commits := [],
          dbFinal := some (init_db (inp.remoteDb.map Prod.fst)),
          insertedCount := none, printedEnvError := false,
          printedRawLLM := false, crashed := truthy }
      | .records items =>
        if items = [] then
          { calls := [.githubGetDb, .newsFetch, .classify], commits := [],
            dbFinal := some (init_db (inp.remoteDb.map Prod.fst)),
            insertedCount := none, printedEnvError := false,
            printedRawLLM := false, crashed := false }
        else
          if items.filter (fun i => !(i.type == some "irrelevant")) = [] then
            { calls := [.githubGetDb, .newsFetch, .classify], commits := [],
              dbFinal := some (init_db (inp.remoteDb.map Prod.fst)),
              insertedCount := none, printedEnvError := false,
              printedRawLLM := false, crashed := false }
          else
            match add_articles_to_db (init_db (inp.remoteDb.map Prod.fst))
                (items.filter (fun i => !(i.type == some "irrelevant"))) with
            | none =>
              { calls := [.githubGetDb, .newsFetch, .classify], commits := [],
                dbFinal := some (init_db (inp.remoteDb.map Prod.fst)),
                insertedCount := none,
                printedEnvError := false, printedRawLLM := false, crashed := true }
            | some (db1, n) =>
              match get_all_articles_from_db db1 with
              | none =>
                { calls := [.githubGetDb, .newsFetch, .classify], commits := [],
                  dbFinal := some db1, insertedCount := some n,
                  printedEnvError := false, printedRawLLM := false, crashed := true }
              | some arts =>
                { calls := [.githubGetDb, .newsFetch, .classify, .githubGetJson],
                  commits :=
                    [⟨JSON_FILE_PATH, .liveJson (liveSlice arts), inp.jsonShaAtPublish⟩,
                     ⟨DB_FILE_PATH, .dbBlob db1, inp.remoteDb.map Prod.snd⟩],
                  dbFinal := some db1, insertedCount := some n,
                  printedEnvError := false, printedRawLLM := false, crashed := false }

/-! ## The seeding script `seed_database.py` -/

inductive SeedOutcome where
  | fileNotFound
  | errorCaught (msg : String)
  | success
deriving DecidableEq, Repr

/-- The names bound in the script's scope when line 51 runs
(`print(f"Adding {len(old_aata)} articles to the database...")`). -/
def seedLocals : List String :=
  ["sqlite3", "json", "DB_FILE", "JSON_FILE", "init_db", "add_articles_to_db",
   "conn", "f", "old_data"]

/-- Python name lookup for the f-string expression on line 51. -/
def lookupLocal (name : String) : Option String :=
  if name ∈ seedLocals then some name else none

/-- The `__main__` block of `seed_database.py`.  `fileContents`:
`none` = `JSON_FILE` missing (`FileNotFoundError`), `some none` = file
present but not valid JSON (`json.JSONDecodeError`), `some (some items)`
= parsed list.  Both error paths are caught by the `except` clauses. -/
def seedMain (fileContents : Option (Option (List Item))) (db : DB) : DB × SeedOutcome :=
  match fileContents with
  | none => (db, .fileNotFound)
  | some none => (db, .errorCaught "json.JSONDecodeError")
  | some (some items) =>
    match lookupLocal "old_aata" with
    | none => (db, .errorCaught "NameError: name old_aata is not defined")
    | some _ =>
      match add_articles_to_db db items with
      | some p => (p.1, .success)
      | none => (db, .errorCaught "KeyError")

/-! ## Concrete fixtures for witnesses and counterexamples -/

def artX : Article :=
  { headline := "X", type := "high priority", countries := ["us", "cn"],
    category := "Geopolitical & Security", date := "2025-01-02T00:00:00Z", body := "b" }

def artY : Article :=
  { headline := "Y", type := "medium priority", countries := [],
    category := "Economic & Trade", date := "2025-01-01T00:00:00Z", body := "c" }

def itemX : Item := itemOfArticle artX

def itemY : Item := itemOfArticle artY

def rowX : Row := rowOfArticle artX

def rowY : Row := rowOfArticle artY

/-- An item the classifier marked off-topic. -/
def itemIrr : Item :=
  { headline := some "Z", type := some "irrelevant", countries := some [],
    category := some "n/a", date := some "2025-01-03T00:00:00Z", body := some "d" }

/-- An item with a missing required field (no `body`). -/
def itemBad : Item :=
  { headline := some "W", type := some "forecast alert", countries := some ["fr"],
    category := some "Political & Regulatory", date := some "2025-01-04T00:00:00Z",
    body := none }

def envOK : RunEnv :=
  { newsApiKey := some "n", geminiApiKey := some "g", githubPat := some "p" }

/-- A run whose only candidate is a duplicate of a stored headline. -/
def dupRunInput : RunInput :=
  { env := envOK, remoteDb := some ([rowX], "dbsha1"), jsonShaAtStart := some "jsha1",
    jsonShaAtPublish := some "jsha1", rawNewsCount := 1, llm := .records [itemX] }

/-- A run during which the remote live JSON changed (`jsha1` → `jsha2`). -/
def staleJsonRunInput : RunInput :=
  { env := envOK, remoteDb := some ([rowX], "dbsha1"), jsonShaAtStart := some "jsha1",
    jsonShaAtPublish := some "jsha2", rawNewsCount := 1, llm := .records [itemY] }

/-- A run where the classifier returns valid JSON that is not a record
sequence (the number `42`). -/
def wrongShapeRunInput : RunInput :=
  { env := envOK, remoteDb := some ([rowX], "dbsha1"), jsonShaAtStart := some "jsha1",
    jsonShaAtPublish := some "jsha1", rawNewsCount := 1, llm := .otherJson true "42" }

/-- A run with the news-source credential absent. -/
def noKeyRunInput : RunInput :=
  { env := { newsApiKey := none, geminiApiKey := some "g", githubPat := some "p" },
    remoteDb := some ([rowX], "dbsha1"), jsonShaAtStart := some "jsha1",
    jsonShaAtPublish := some "jsha1", rawNewsCount := 1, llm := .records [itemX] }

/-- A run whose only candidate is classified as irrelevant. -/
def allIrrRunInput : RunInput :=
  { env := envOK, remoteDb := some ([rowX], "dbsha1"), jsonShaAtStart := some "jsha1",
    jsonShaAtPublish := some "jsha1", rawNewsCount := 1, llm := .records [itemIrr] }

/-- A run where the classifier returns text that is not JSON. -/
def notJsonRunInput : RunInput :=
  { env := envOK, remoteDb := some ([rowX], "dbsha1"), jsonShaAtStart := some "jsha1",
    jsonShaAtPublish := some "jsha1", rawNewsCount := 1, llm := .notJson "oops" }

/-- The live-JSON commit emitted by `staleJsonRunInput`. -/
def staleJsonCommit : Commit :=
  ⟨JSON_FILE_PATH, .liveJson [artX, artY], some "jsha2"⟩

/-! ## Auxiliary facts for the claims -/

theorem add_articles_none_of_incomplete (batch : List Item) :
    ∀ db : DB, (∃ i ∈ batch, toArticle i = none) → add_articles_to_db db batch = none := by
  induction batch with
  | nil => rintro db ⟨i, hi, _⟩; cases hi
  | cons j rest ih =>
    rintro db ⟨i, hi, hbad⟩
    rcases List.mem_cons.mp hi with rfl | hi
    · simp [add_articles_to_db, hbad]
    · cases hta : toArticle j with
      | none => simp [add_articles_to_db, hta]
      | some a =>
        simp only [add_articles_to_db, hta, Option.some_bind]
        rw [ih _ ⟨i, hi, hbad⟩]
        rfl

theorem forall₂_mem_left {R : Row → Article → Prop} :
    ∀ {rs : List Row} {as : List Article}, List.Forall₂ R rs as →
      ∀ r ∈ rs, ∃ a ∈ as, R r a := by
  intro rs as h
  induction h with
  | nil => intro r hr; cases hr
  | cons hR _ ih =>
    intro r hr
    rcases List.mem_cons.mp hr with rfl | hr
    · exact ⟨_, List.mem_cons_self _ _, hR⟩
    · obtain ⟨a, ha, hRa⟩ := ih r hr
      exact ⟨a, List.mem_cons_of_mem _ ha, hRa⟩

/-! ## The claims -/

/-- C1.  Headline uniqueness invariant: starting from an initialized
(empty) archive — or any archive satisfying the PRIMARY KEY invariant —
every sequence of merge runs keeps headlines unique; a committed merge
only appends rows whose headlines were absent (so a duplicate candidate
is silently dropped and, once a headline is stored, its row is never
updated in place or deleted: the rows carrying it are exactly the rows
that carried it before). -/
theorem c1_headline_uniqueness (db : DB) (batches : List (List Item))
    (batch : List Item) (hl : String) (hu : uniqueHeadlines db) :
    uniqueHeadlines (mergeAll db batches)
    ∧ uniqueHeadlines (mergeAll (init_db none) batches)
    ∧ (∃ extra, mergeStep db batch = db ++ extra ∧
        ∀ r ∈ extra, headlineExists db r.headline = false)
    ∧ (headlineExists db hl = true →
        (mergeStep db batch).filter (fun r => r.headline == hl) =
          db.filter (fun r => r.headline == hl)) := by
  refine ⟨mergeAll_unique batches db hu, ?_, mergeStep_append db batch,
    mergeStep_filter_frozen db batch hl⟩
  exact mergeAll_unique batches (init_db none) (by simp [init_db, uniqueHeadlines])

theorem c1_headline_uniqueness_witness :
    uniqueHeadlines [rowX]
    ∧ (uniqueHeadlines (mergeAll [rowX] [[itemX, itemY]])
      ∧ uniqueHeadlines (mergeAll (init_db none) [[itemX, itemY]])
      ∧ (∃ extra, mergeStep [rowX] [itemX, itemY] = [rowX] ++ extra ∧
          ∀ r ∈ extra, headlineExists [rowX] r.headline = false)
      ∧ (headlineExists [rowX] "X" = true →
          (mergeStep [rowX] [itemX, itemY]).filter (fun r => r.headline == "X") =
            [rowX].filter (fun r => r.headline == "X"))) :=
  ⟨by decide, c1_headline_uniqueness [rowX] [[itemX, itemY]] [itemX, itemY] "X" (by decide)⟩

/-- C2.  Idempotent merge: if merging a batch committed `(db1, n)`, then
merging the same batch again commits `(db1, 0)` — the record set is
unchanged and every duplicate headline is rejected the second time —
and the first merge appended exactly the candidates whose headlines were
absent, returning the count of rows actually inserted. -/
theorem c2_idempotent_merge (db db1 : DB) (batch : List Item) (n : Nat)
    (h : add_articles_to_db db batch = some (db1, n)) :
    add_articles_to_db db1 batch = some (db1, 0)
    ∧ (∃ extra, db1 = db ++ extra ∧ n = extra.length ∧
        ∀ r ∈ extra, headlineExists db r.headline = false) :=
  ⟨add_articles_all_present batch db1 (add_articles_present_after batch db db1 n h),
   add_articles_append batch db db1 n h⟩

theorem c2_idempotent_merge_witness :
    add_articles_to_db [] [itemX, itemX] = some ([rowX], 1)
    ∧ (add_articles_to_db [rowX] [itemX, itemX] = some ([rowX], 0)
      ∧ (∃ extra, [rowX] = [] ++ extra ∧ 1 = extra.length ∧
          ∀ r ∈ extra, headlineExists [] r.headline = false)) :=
  ⟨by decide, c2_idempotent_merge [] [rowX] [itemX, itemX] 1 (by decide)⟩

/-- C3.  Live-view projection: when reading the archive back succeeds,
the live view `all_articles[:150]` has length `min len(archive) 150`,
every live record exists field-for-field in the archive (as a stored
row), adjacent records are in date-descending order, the slice agrees
with the spec's projector at N = 150, and the projector at N ≤ 0 yields
the empty list. -/
theorem c3_live_view (db : DB) (arts : List Article)
    (h : get_all_articles_from_db db = some arts) :
    (liveSlice arts).length = min db.length LIVE_ARTICLE_LIMIT
    ∧ (∀ a ∈ liveSlice arts, ∃ r ∈ db, articleOfRow r = some a)
    ∧ (liveSlice arts).Chain' (fun a b => dateLe b.date a.date = true)
    ∧ liveSlice arts = liveViewN arts (LIVE_ARTICLE_LIMIT : Int)
    ∧ (∀ n : Int, n ≤ 0 → liveViewN arts n = []) := by
  have hf := rowsToArticles_forall₂ (sortRows db) arts h
  have hlen : arts.length = db.length := by
    rw [← hf.length_eq]
    exact (sortRows_perm db).length_eq
  refine ⟨?_, ?_, ?_, ?_, ?_⟩
  · rw [liveSlice, List.length_take, hlen]
    omega
  · intro a ha
    have ha2 : a ∈ arts := List.take_subset _ _ ha
    obtain ⟨r, hr, hra⟩ := forall₂_mem_right hf a ha2
    exact ⟨r, (sortRows_perm db).subset hr, hra⟩
  · have hp : arts.Pairwise (fun a b => dateLe b.date a.date = true) :=
      forall₂_pairwise_dates hf (sortRows_pairwise db)
    exact (List.Pairwise.sublist (List.take_sublist _ _) hp).chain'
  · simp [liveSlice, liveViewN, LIVE_ARTICLE_LIMIT]
  · intro n hn
    simp [liveViewN, Int.toNat_of_nonpos hn]

theorem c3_live_view_witness :
    get_all_articles_from_db [rowY, rowX] = some [artX, artY]
    ∧ ((liveSlice [artX, artY]).length = min ([rowY, rowX] : DB).length LIVE_ARTICLE_LIMIT
      ∧ (∀ a ∈ liveSlice [artX, artY], ∃ r ∈ ([rowY, rowX] : DB), articleOfRow r = some a)
      ∧ (liveSlice [artX, artY]).Chain' (fun a b => dateLe b.date a.date = true)
      ∧ liveSlice [artX, artY] = liveViewN [artX, artY] (LIVE_ARTICLE_LIMIT : Int)
      ∧ (∀ n : Int, n ≤ 0 → liveViewN [artX, artY] n = [])) :=
  ⟨by decide, c3_live_view [rowY, rowX] [artX, artY] (by decide)⟩

/-- C5.  Validator contract: the filter keeps exactly the records whose
`type` is not `"irrelevant"` (a sublist, so order is preserved), and a
batch containing a record with a missing required field makes
`add_articles_to_db` raise (`none`): nothing is silently coerced or
stored. -/
theorem c5_validator (items : List Item) (db : DB) :
    (∀ i : Item, i ∈ items.filter (fun j => !(j.type == some "irrelevant")) ↔
        i ∈ items ∧ i.type ≠ some "irrelevant")
    ∧ (items.filter (fun j => !(j.type == some "irrelevant"))).Sublist items
    ∧ ((∃ i ∈ items, toArticle i = none) → add_articles_to_db db items = none) := by
  refine ⟨?_, List.filter_sublist items,
    fun h => add_articles_none_of_incomplete items db h⟩
  intro i
  simp [List.mem_filter]

theorem c5_validator_witness :
    (∀ i : Item, i ∈ [itemIrr, itemBad].filter (fun j => !(j.type == some "irrelevant")) ↔
        i ∈ [itemIrr, itemBad] ∧ i.type ≠ some "irrelevant")
    ∧ ([itemIrr, itemBad].filter (fun j => !(j.type == some "irrelevant"))).Sublist
        [itemIrr, itemBad]
    ∧ add_articles_to_db [] [itemIrr, itemBad] = none := by
  have h := c5_validator [itemIrr, itemBad] []
  exact ⟨h.1, h.2.1, h.2.2 ⟨itemBad, by decide, by decide⟩⟩

/-- C9.  The seeding script never inserts: when the input file exists
and parses, line 51 evaluates the unbound name `old_aata` (the locals
bind `old_data`), the `NameError` is caught and reported by the generic
`except`, and the articles table is left unchanged — zero records are
inserted, whatever the file contained. -/
theorem c9_seed_never_inserts (items : List Item) (db : DB) :
    lookupLocal "old_aata" = none
    ∧ seedMain (some (some items)) db =
        (db, .errorCaught "NameError: name old_aata is not defined") := by
  have hl : lookupLocal "old_aata" = none := by decide
  exact ⟨hl, by simp [seedMain, hl]⟩

/-- C10.  Countries round-trip: a record stored by `add_articles_to_db`
(its row is `rowOfArticle a`) is returned verbatim by
`get_all_articles_from_db`: `json.loads` after `json.dumps` is the
identity on its countries list, and the read-back dict equals the
original record field for field. -/
theorem c10_countries_round_trip (a : Article) (db1 : DB) (arts : List Article)
    (hrow : rowOfArticle a ∈ db1)
    (hget : get_all_articles_from_db db1 = some arts) :
    jsonLoadsList (jsonDumpsList a.countries) = some a.countries
    ∧ articleOfRow (rowOfArticle a) = some a
    ∧ a ∈ arts := by
  have hf := rowsToArticles_forall₂ (sortRows db1) arts hget
  have hrs : rowOfArticle a ∈ sortRows db1 := (sortRows_perm db1).mem_iff.mpr hrow
  obtain ⟨b, hb, hab⟩ := forall₂_mem_left hf (rowOfArticle a) hrs
  have hround := articleOfRow_rowOfArticle a
  have hba : b = a := by
    rw [hround] at hab
    exact (Option.some.injEq _ _).mp hab.symm
  exact ⟨jsonLoadsList_enc a.countries, hround, hba ▸ hb⟩

theorem c10_countries_round_trip_witness :
    rowOfArticle artX ∈ ([rowX] : DB)
    ∧ get_all_articles_from_db [rowX] = some [artX]
    ∧ (jsonLoadsList (jsonDumpsList artX.countries) = some artX.countries
      ∧ articleOfRow (rowOfArticle artX) = some artX
      ∧ artX ∈ [artX]) :=
  ⟨by decide, by decide,
   c10_countries_round_trip artX [rowX] [artX] (by decide) (by decide)⟩

/-- C4, counterexample.  A run whose only candidate is relevant but a
duplicate: the merge inserts zero records, yet the run still publishes
both artifacts (two remote writes), contradicting the claimed no-op. -/
theorem c4_counterexample :
    (mainRun dupRunInput).insertedCount = some 0
    ∧ (mainRun dupRunInput).commits ≠ [] := by decide

/-- C4, amended.  The run skips publishing when every candidate is
filtered as irrelevant (the relevant list is empty); a run whose
relevant candidates are all duplicates still publishes. -/
theorem c4_noop_amended (inp : RunInput) (items : List Item)
    (hllm : inp.llm = .records items)
    (hfilter : items.filter (fun j => !(j.type == some "irrelevant")) = []) :
    (mainRun inp).commits = [] ∧ (mainRun inp).insertedCount = none := by
  unfold mainRun
  split
  · exact ⟨rfl, rfl⟩
  · split
    · exact ⟨rfl, rfl⟩
    · rw [hllm]
      by_cases hit : items = []
      · simp [hit]
      · simp [hit, hfilter]

theorem c4_noop_amended_witness :
    allIrrRunInput.llm = .records [itemIrr]
    ∧ [itemIrr].filter (fun j => !(j.type == some "irrelevant")) = []
    ∧ ((mainRun allIrrRunInput).commits = []
      ∧ (mainRun allIrrRunInput).insertedCount = none) :=
  ⟨rfl, by decide, c4_noop_amended allIrrRunInput [itemIrr] rfl (by decide)⟩

/-- C6, counterexample.  The remote live JSON changed during the run
(`jsha1` at start, `jsha2` at publish): the live-JSON write passes
`jsha2` — the token fetched just before the write — not a token captured
at the start-of-run download, so the concurrent change is not detected
(the archive write does pass the start-of-run token `dbsha1`). -/
theorem c6_counterexample :
    staleJsonRunInput.jsonShaAtStart = some "jsha1"
    ∧ (mainRun staleJsonRunInput).commits.map Commit.expectedSha =
        [some "jsha2", some "dbsha1"] := by decide

/-- C6, amended.  Every archive-database write passes the version token
captured when the archive was downloaded at run start; every live-JSON
write passes the token fetched immediately before that write, so a
change to the live JSON since run start is overwritten, not rejected. -/
theorem c6_publish_tokens_amended (inp : RunInput) (c : Commit)
    (hc : c ∈ (mainRun inp).commits) :
    (c.path = DB_FILE_PATH → c.expectedSha = inp.remoteDb.map Prod.snd)
    ∧ (c.path = JSON_FILE_PATH → c.expectedSha = inp.jsonShaAtPublish) := by
  unfold mainRun at hc
  split at hc
  · simp at hc
  · split at hc
    · simp at hc
    · split at hc
      · simp at hc
      · simp at hc
      · split at hc
        · simp at hc
        · split at hc
          · simp at hc
          · split at hc
            · simp at hc
            · split at hc
              · simp at hc
              · rcases List.mem_cons.mp hc with rfl | hc2
                · exact ⟨fun hp =>
                    absurd hp (show ¬ JSON_FILE_PATH = DB_FILE_PATH by decide),
                    fun _ => rfl⟩
                · rcases List.mem_cons.mp hc2 with rfl | hc3
                  · exact ⟨fun _ => rfl, fun hp =>
                      absurd hp (show ¬ DB_FILE_PATH = JSON_FILE_PATH by decide)⟩
                  · cases hc3

theorem c6_publish_tokens_amended_witness :
    staleJsonCommit ∈ (mainRun staleJsonRunInput).commits
    ∧ ((staleJsonCommit.path = DB_FILE_PATH →
          staleJsonCommit.expectedSha = staleJsonRunInput.remoteDb.map Prod.snd)
      ∧ (staleJsonCommit.path = JSON_FILE_PATH →
          staleJsonCommit.expectedSha = staleJsonRunInput.jsonShaAtPublish)) :=
  ⟨by decide, c6_publish_tokens_amended staleJsonRunInput staleJsonCommit (by decide)⟩

/-- C7, counterexample.  The classifier returns `42` — valid JSON that
is not a record sequence: the run aborts with an uncaught exception,
inserts nothing and writes nothing, but the raw classifier output is
NOT surfaced (only the not-JSON branch prints it), contradicting the
claimed diagnostic. -/
theorem c7_counterexample :
    (mainRun wrongShapeRunInput).printedRawLLM = false
    ∧ (mainRun wrongShapeRunInput).crashed = true
    ∧ (mainRun wrongShapeRunInput).commits = []
    ∧ (mainRun wrongShapeRunInput).insertedCount = none := by decide

/-- C7, amended.  On malformed classifier output the run inserts nothing
into the archive and performs no remote write (the local table stays the
downloaded copy); the raw output is surfaced exactly when the output is
not valid JSON (in which case the run ends quietly).  Valid JSON that is
not a record sequence is never surfaced either: if truthy (`42`,
`"text"`, a non-empty object) the run aborts with an uncaught exception,
and if falsy (`{}`, `0`, `null`, `""`) the run falls through the
`if processed_data:` test and ends quietly with exit status zero —
`crashed` equals the value's truthiness. -/
theorem c7_malformed_amended (inp : RunInput) (raw : String) (t : Bool)
    (henv : (inp.env.newsApiKey.isSome && inp.env.geminiApiKey.isSome
        && inp.env.githubPat.isSome) = true)
    (hnews : inp.rawNewsCount ≠ 0)
    (hllm : inp.llm = .notJson raw ∨ inp.llm = .otherJson t raw) :
    (mainRun inp).commits = []
    ∧ (mainRun inp).insertedCount = none
    ∧ (mainRun inp).dbFinal = some (init_db (inp.remoteDb.map Prod.fst))
    ∧ (inp.llm = .notJson raw →
        (mainRun inp).printedRawLLM = true ∧ (mainRun inp).crashed = false)
    ∧ (inp.llm = .otherJson t raw →
        (mainRun inp).printedRawLLM = false ∧ (mainRun inp).crashed = t) := by
  rcases hllm with h | h
  · simp [mainRun, henv, hnews, h]
  · simp [mainRun, henv, hnews, h]

theorem c7_malformed_amended_witness :
    ((notJsonRunInput.env.newsApiKey.isSome && notJsonRunInput.env.geminiApiKey.isSome
        && notJsonRunInput.env.githubPat.isSome) = true)
    ∧ notJsonRunInput.rawNewsCount ≠ 0
    ∧ (notJsonRunInput.llm = .notJson "oops" ∨ notJsonRunInput.llm = .otherJson true "oops")
    ∧ ((mainRun notJsonRunInput).commits = []
      ∧ (mainRun notJsonRunInput).insertedCount = none
      ∧ (mainRun notJsonRunInput).dbFinal =
          some (init_db (notJsonRunInput.remoteDb.map Prod.fst))
      ∧ (notJsonRunInput.llm = .notJson "oops" →
          (mainRun notJsonRunInput).printedRawLLM = true
          ∧ (mainRun notJsonRunInput).crashed = false)
      ∧ (notJsonRunInput.llm = .otherJson true "oops" →
          (mainRun notJsonRunInput).printedRawLLM = false
          ∧ (mainRun notJsonRunInput).crashed = true)) :=
  ⟨by decide, by decide, Or.inl rfl,
   c7_malformed_amended notJsonRunInput "oops" true (by decide) (by decide) (Or.inl rfl)⟩

/-- C8, counterexample.  With the news-source credential absent the run
prints the error to the log and performs nothing — no external call, no
archive access, no remote write — but the process terminates normally
(no uncaught exception, zero exit status), not with a non-zero-equivalent
signal. -/
theorem c8_counterexample :
    (mainRun noKeyRunInput).printedEnvError = true
    ∧ (mainRun noKeyRunInput).crashed = false
    ∧ (mainRun noKeyRunInput).calls = []
    ∧ (mainRun noKeyRunInput).commits = [] := by decide

/-- C8, amended.  A missing credential is reported to the log and the
run performs no partial execution — no external call, no archive access,
no remote write — but the process exits normally (zero status) instead
of signalling failure. -/
theorem c8_missing_credentials_amended (inp : RunInput)
    (h : (inp.env.newsApiKey.isSome && inp.env.geminiApiKey.isSome
        && inp.env.githubPat.isSome) = false) :
    (mainRun inp).calls = [] ∧ (mainRun inp).commits = []
    ∧ (mainRun inp).dbFinal = none ∧ (mainRun inp).insertedCount = none
    ∧ (mainRun inp).printedEnvError = true ∧ (mainRun inp).crashed = false := by
  simp [mainRun, h]

theorem c8_missing_credentials_amended_witness :
    ((noKeyRunInput.env.newsApiKey.isSome && noKeyRunInput.env.geminiApiKey.isSome
        && noKeyRunInput.env.githubPat.isSome) = false)
    ∧ ((mainRun noKeyRunInput).calls = [] ∧ (mainRun noKeyRunInput).commits = []
      ∧ (mainRun noKeyRunInput).dbFinal = none
      ∧ (mainRun noKeyRunInput).insertedCount = none
      ∧ (mainRun noKeyRunInput).printedEnvError = true
      ∧ (mainRun noKeyRunInput).crashed = false) :=
  ⟨by decide, c8_missing_credentials_amended noKeyRunInput (by decide)⟩

end Dash
